import Mathlib

/-!
Verification of the Castlefall server core (`server.py`): the room/round state
machine, draw-without-replacement word pools, and the session registry
(register / unregister / kick / start-round dispatch).

Modelling conventions:
* Python dicts keyed by strings are association lists `List (String × α)` in
  insertion order; `dictGet`/`dictSet`/`dictDel` mirror `d[k]`, `d[k] = v`,
  `del d[k]`.  The two `defaultdict`s (`rooms`, `words_left`) are total
  functions with the default value, which is observationally equivalent.
* Wall-clock time (`time.time()`, a float in Python) is modelled as an exact
  integer passed in as `now`; the rate-limit comparison `now < last + 2` keeps
  its exact shape.
* Randomness (`random.shuffle`, `random.sample`) is an oracle `Rand` of
  functions; theorems hypothesise that a shuffle returns a permutation and
  that `sample` returns two distinct in-range indices.
* Python exceptions (`KeyError` from `wordlists[key]`/`del`, `ValueError`
  from `random.sample`, `AttributeError` from `None.start_round`) are modelled
  explicitly: a result constructor carries the state as it stood when the
  exception was raised, since the Python objects keep their partial mutations.
-/

namespace Castlefall

/-- Python exceptions that the modelled code can raise. -/
inductive PyErr where
  | keyError
  | valueError
  | attributeError
  deriving DecidableEq, Repr

/-- Python slice `l[n:]` for an integer `n` (negative indices count from the
end, clamped at the ends as in Python). -/
def pyDrop (l : List α) (n : Int) : List α :=
  if 0 ≤ n then l.drop n.toNat else l.drop ((l.length + n).toNat)

/-- Python slice `l[:n]` for an integer `n`. -/
def pyTake (l : List α) (n : Int) : List α :=
  if 0 ≤ n then l.take n.toNat else l.take ((l.length + n).toNat)

/-- Lookup in a Python dict modelled as an association list (`d.get(k)` /
`d[k]` when present). -/
def dictGet (d : List (String × α)) (k : String) : Option α :=
  (d.find? (fun p => p.1 == k)).map Prod.snd

/-- Membership test `k in d`. -/
def dictMem (d : List (String × α)) (k : String) : Bool :=
  (d.find? (fun p => p.1 == k)).isSome

/-- Assignment `d[k] = v`: overwrite the entry in place when the key is
present (Python dicts keep the original position), append otherwise.  Keys
are unique in every dict the server builds, so replacing the first
occurrence is the Python behaviour. -/
def dictSet : List (String × α) → String → α → List (String × α)
  | [], k, v => [(k, v)]
  | p :: d, k, v => if p.1 == k then (k, v) :: d else p :: dictSet d k v

/-- Deletion `del d[k]`. -/
def dictDel (d : List (String × α)) (k : String) : List (String × α) :=
  d.filter (fun p => !(p.1 == k))

/-- Code-point comparison of character lists, as Python compares strings. -/
def chListLe : List Char → List Char → Bool
  | [], _ => true
  | _ :: _, [] => false
  | c :: cs, d :: ds =>
    if c.toNat < d.toNat then true
    else if d.toNat < c.toNat then false
    else chListLe cs ds

/-- Python string comparison `a <= b` (lexicographic by code point). -/
def strLe (a b : String) : Bool := chListLe a.data b.data

/-- Insertion into a sorted list, used to model Python's `sorted`. -/
def insertSorted (le : α → α → Bool) (x : α) : List α → List α
  | [] => [x]
  | y :: ys => if le x y then x :: y :: ys else y :: insertSorted le x ys

/-- Model of Python's `sorted` (insertion sort; elements here are pairwise
distinct wherever it is used, so any correct sort agrees with it). -/
def pySorted (le : α → α → Bool) : List α → List α
  | [] => []
  | x :: xs => insertSorted le x (pySorted le xs)

/-- The global `wordlists` mapping, one entry per wordlist file. -/
abbrev WordBank := List (String × List String)

/-- Lookup `wordlists[key]`, `none` when the key is absent (a `KeyError` at
the call sites that index it). -/
def wbGet (wb : WordBank) (k : String) : Option (List String) := dictGet wb k

/-- The catalog `[[k, len(v)] for k, v in sorted(wordlists.items())]`. -/
def wbSizes (wb : WordBank) : List (String × Nat) :=
  (pySorted (fun p q => strLe p.1 q.1) wb).map (fun p => (p.1, p.2.length))

/-- The protocol version string sent in the registration snapshot. -/
def version : String := "v0.2"

/-- Connections are identified by their stable peer string. -/
abbrev Conn := String

/-- Per-room state, mirroring `Room.__init__`.  `words` is `none` before the
first successful round because `self.words` is only assigned in
`start_round`. -/
structure Room where
  d : List (String × Conn)
  round : Nat
  last_start : Int
  players_in_round : List String
  assigned_words : List (String × String)
  words_left : List (String × List String)
  words : Option (List String)
  deriving DecidableEq

/-- A freshly constructed `Room()` whose creation time was `t`. -/
def Room.init (t : Int) : Room :=
  { d := [], round := 0, last_start := t, players_in_round := []
    assigned_words := [], words_left := [], words := none }

/-- Read `self.words_left[key]` on the `defaultdict(list)`: the stored list,
or `[]` when absent.  (The `defaultdict` also inserts `[]` on a missing read;
that insertion is invisible to every later lookup and is elided.) -/
def Room.pool (r : Room) (key : String) : List String :=
  (dictGet r.words_left key).getD []

/-- `Room.has_player`. -/
def Room.has_player (r : Room) (name : String) : Bool := dictMem r.d name

/-- `Room.get_player_names`: `list(sorted(self.d.keys()))`. -/
def Room.get_player_names (r : Room) : List String :=
  pySorted strLe (r.d.map Prod.fst)

/-- `Room.get_assigned_word`. -/
def Room.get_assigned_word (r : Room) (name : String) : Option String :=
  dictGet r.assigned_words name

/-- `Room.select_words`: draw `num` words for wordlist `key` from the
per-room pool, refilling the pool with a freshly shuffled full copy of
`wordlists[key]` when fewer than `num` remain.  `shuf` is the
`random.shuffle` oracle.  Unknown `key` raises `KeyError` (from
`wordlists[key]`); the refill branch is the only one that indexes
`wordlists`. -/
def Room.select_words (wb : WordBank) (shuf : List String → List String)
    (r : Room) (key : String) (num : Int) :
    Except PyErr (List String × Room) :=
  let left := r.pool key
  if (left.length : Int) < num then
    match wbGet wb key with
    | none => .error .keyError
    | some full =>
      let left := shuf full
      .ok (pyTake left num,
        { r with words_left := dictSet r.words_left key (pyDrop left num) })
  else
    .ok (pyTake left num,
      { r with words_left := dictSet r.words_left key (pyDrop left num) })

/-- The randomness oracle: `shuf` models `random.shuffle` on word lists,
`shufC` models `random.shuffle` on the `(name, client)` list, and `sample2`
models the index pair chosen by `random.sample(words, 2)`. -/
structure Rand where
  shuf : List String → List String
  shufC : List (String × Conn) → List (String × Conn)
  sample2 : List String → Nat × Nat

/-- The `wordcount` field of a start request: absent, present but failing
`int(...)` with a `ValueError`, or an integer value. -/
inductive WCField where
  | absent
  | malformed
  | val (n : Int)

/-- `int(val.get('wordcount', 18))` with `ValueError` caught and defaulted. -/
def parse_wordcount : WCField → Int
  | .absent => 18
  | .malformed => 18
  | .val n => n

/-- The decoded `start` request value. -/
structure StartReq where
  roundField : Option Int
  wordlist : Option String
  wordcount : WCField

/-- The word-assignment loop
`for i, (name, client) in enumerate(named_clients): ...`, starting at index
`i` with the accumulated `assigned_words` dict `aw`. -/
def assignLoop (half : Nat) (word1 word2 : String) :
    Nat → List (String × String) → List (String × Conn) → List (String × String)
  | _, aw, [] => aw
  | i, aw, (name, _) :: rest =>
      assignLoop half word1 word2 (i + 1)
        (dictSet aw name (if half ≤ i then word2 else word1)) rest

/-- Outcome of `Room.start_round`: returned `True` with the new state,
returned `False` with the (unchanged) state, or raised an exception with the
state as mutated so far. -/
inductive StartRes where
  | ok (r : Room)
  | rej (r : Room)
  | exn (e : PyErr) (r : Room)
  deriving DecidableEq

/-- `Room.start_round`.  The round-sync and rate-limit checks return `False`
before any mutation; after them `round` and `last_start` are mutated, and the
remaining failures (`KeyError` on an unknown wordlist, `ValueError` when the
drawn list has fewer than 2 words) raise. -/
def Room.start_round (wb : WordBank) (rand : Rand) (now : Int)
    (r : Room) (val : StartReq) : StartRes :=
  if val.roundField ≠ some (r.round : Int) then .rej r
  else if now < r.last_start + 2 then .rej r
  else
    let r1 : Room := { r with round := r.round + 1, last_start := now }
    let wordcount := parse_wordcount val.wordcount
    match val.wordlist with
    | none => .exn .keyError r1
    | some wl =>
      match r1.select_words wb rand.shuf wl wordcount with
      | .error e => .exn e r1
      | .ok (words, r2) =>
        let named := rand.shufC r2.d
        let half := named.length / 2
        if words.length < 2 then .exn .valueError r2
        else
          let ij := rand.sample2 words
          let word1 := words.getD ij.1 ""
          let word2 := words.getD ij.2 ""
          .ok { r2 with
            players_in_round := r2.get_player_names
            assigned_words := assignLoop half word1 word2 0 [] named
            words := some words }

/-- `Room.get_words_shuffled`; raises `AttributeError` before the first
successful round because `self.words` is unassigned until then. -/
def Room.get_words_shuffled (shuf : List String → List String) (r : Room) :
    Except PyErr (List String) :=
  match r.words with
  | none => .error .attributeError
  | some w => .ok (shuf w)

/-- A `ClientStatus` session record. -/
structure ClientStatus where
  room : String
  name : String
  deriving DecidableEq, Repr

/-- Wire messages sent by the server, one constructor per JSON shape. -/
inductive Msg where
  | notice (text : String)
  | players (names : List String)
  | snapshot (room : String) (round : Nat) (playersinround : List String)
      (words : List String) (word : Option String)
      (wordlistSizes : List (String × Nat)) (ver : String)
  | roundStart (round : Nat) (playersinround : List String)
      (words : List String) (word : Option String)
  deriving DecidableEq, Repr

/-- The factory state: the lazily created room table, the peer→session map,
and the factory-level `self.words` list (assigned only in `__init__`). -/
structure CastlefallFactory where
  rooms : String → Room
  status_for_peer : Conn → Option ClientStatus
  words : List String

/-- Result of one factory operation: the new state, the messages sent (in
order, addressed by peer), and the exception that escaped, if any. -/
structure FStep where
  state : CastlefallFactory
  msgs : List (Conn × Msg)
  err : Option PyErr

/-- Pointwise update of the room table at one key. -/
def updRoom (rooms : String → Room) (k : String) (r : Room) : String → Room :=
  fun x => if x = k then r else rooms x

/-- Pointwise update of the session table at one peer. -/
def statusSet (st : Conn → Option ClientStatus) (peer : Conn)
    (v : Option ClientStatus) : Conn → Option ClientStatus :=
  fun x => if x = peer then v else st x

/-- `CastlefallFactory.broadcast`: one message per client in the room. -/
def broadcastMsgs (room : Room) (m : Msg) : List (Conn × Msg) :=
  room.d.map (fun p => (p.2, m))

/-- Tail of `CastlefallFactory.register` after the eviction check: insert the
player, record the session, broadcast the player list, and unicast the
snapshot.  The snapshot's `words` field is the factory's own `self.words`
(never reassigned after `__init__`), not the room's. -/
def regFinish (wb : WordBank) (f : CastlefallFactory)
    (room_name name client : String) (pre : List (Conn × Msg)) : FStep :=
  let room := f.rooms room_name
  let room1 : Room := { room with d := dictSet room.d name client }
  let f1 : CastlefallFactory := { f with
    rooms := updRoom f.rooms room_name room1
    status_for_peer := statusSet f.status_for_peer client (some ⟨room_name, name⟩) }
  ⟨f1,
    pre ++ broadcastMsgs room1 (.players room1.get_player_names)
      ++ [(client, .snapshot room_name room1.round room1.players_in_round f.words
            (room1.get_assigned_word name) (wbSizes wb) version)],
    none⟩

/-- `CastlefallFactory.register`.  When the name is taken, the prior holder
is sent the disconnect notice and its session is deleted; that
`del self.status_for_peer[old_client.peer]` raises `KeyError` when the old
client has no session. -/
def CastlefallFactory.register (wb : WordBank) (f : CastlefallFactory)
    (room_name name client : String) : FStep :=
  let room := f.rooms room_name
  match dictGet room.d name with
  | some old_client =>
    match f.status_for_peer old_client with
    | none => ⟨f, [(old_client, .notice "Disconnected: your name was taken.")], some .keyError⟩
    | some _ =>
      regFinish wb
        { f with status_for_peer := statusSet f.status_for_peer old_client none }
        room_name name client
        [(old_client, .notice "Disconnected: your name was taken.")]
  | none => regFinish wb f room_name name client []

/-- `CastlefallFactory.unregister`: a no-op without a session; otherwise the
session is removed, the player's name is removed from its room when present
(deletion is by name only), and the player list is broadcast. -/
def CastlefallFactory.unregister (f : CastlefallFactory) (client : Conn) : FStep :=
  match f.status_for_peer client with
  | none => ⟨f, [], none⟩
  | some st =>
    let f1 : CastlefallFactory :=
      { f with status_for_peer := statusSet f.status_for_peer client none }
    let room := f1.rooms st.room
    let room1 : Room :=
      if st.name = "" then room
      else if room.has_player st.name then { room with d := dictDel room.d st.name }
      else room
    let f2 : CastlefallFactory := { f1 with rooms := updRoom f1.rooms st.room room1 }
    ⟨f2, broadcastMsgs room1 (.players room1.get_player_names), none⟩

/-- `CastlefallFactory.kick`: a no-op without a session; with one, a present
target is sent the kicked notice and removed from room and session table, and
the player list is broadcast whether or not the target was found. -/
def CastlefallFactory.kick (f : CastlefallFactory) (client : Conn)
    (name : String) : FStep :=
  match f.status_for_peer client with
  | none => ⟨f, [], none⟩
  | some st =>
    let room := f.rooms st.room
    match dictGet room.d name with
    | some target =>
      let room1 : Room := { room with d := dictDel room.d name }
      let st1 := if (f.status_for_peer target).isSome
        then statusSet f.status_for_peer target none
        else f.status_for_peer
      let f1 : CastlefallFactory :=
        { f with rooms := updRoom f.rooms st.room room1, status_for_peer := st1 }
      ⟨f1, (target, .notice "Disconnected: you were kicked.")
            :: broadcastMsgs room1 (.players room1.get_player_names), none⟩
    | none => ⟨f, broadcastMsgs room (.players room.get_player_names), none⟩

/-- `CastlefallFactory.start_round`: `room_of` yields `None` for a
session-less connection and the unguarded `room.start_round(val)` then raises
`AttributeError`.  On success every room member is unicast the round
message with a per-recipient shuffle of the round's words. -/
def CastlefallFactory.start_round (wb : WordBank) (rand : Rand) (now : Int)
    (f : CastlefallFactory) (client : Conn) (val : StartReq) : FStep :=
  match f.status_for_peer client with
  | none => ⟨f, [], some .attributeError⟩
  | some st =>
    let room := f.rooms st.room
    match room.start_round wb rand now val with
    | .rej r1 => ⟨{ f with rooms := updRoom f.rooms st.room r1 }, [], none⟩
    | .exn e r1 => ⟨{ f with rooms := updRoom f.rooms st.room r1 }, [], some e⟩
    | .ok r1 =>
      ⟨{ f with rooms := updRoom f.rooms st.room r1 },
        r1.d.map (fun p => (p.2, .roundStart r1.round r1.players_in_round
          (rand.shuf (r1.words.getD [])) (dictGet r1.assigned_words p.1))),
        none⟩

/-- Invariant of the per-room draw pools: the pool of every known wordlist is
a sublist of some permutation of the full wordlist (so it is duplicate-free
when the wordlist is, no longer than it, and contained in it), and pools of
unknown wordlists are empty (only `[num:]` slices of the empty default are
ever stored for them). -/
def PoolInv (wb : WordBank) (r : Room) : Prop :=
  (∀ key ws, wbGet wb key = some ws →
    ∃ p, p.Perm ws ∧ (r.pool key).Sublist p) ∧
  (∀ key, wbGet wb key = none → r.pool key = [])

/-- A word-list shuffle oracle is a permutation. -/
def ShufOK (shuf : List String → List String) : Prop :=
  ∀ l, (shuf l).Perm l

/-- The client-list shuffle oracle is a permutation. -/
def ShufCOK (s : List (String × Conn) → List (String × Conn)) : Prop :=
  ∀ l, (s l).Perm l

/-- The `random.sample(words, 2)` oracle returns two distinct in-range
indices whenever sampling succeeds. -/
def SampleOK (s : List String → Nat × Nat) : Prop :=
  ∀ l, 2 ≤ l.length → (s l).1 < l.length ∧ (s l).2 < l.length ∧ (s l).1 ≠ (s l).2

end Castlefall

namespace Castlefall

/-! ### Association-list dictionary lemmas -/

theorem dictMem_nil (k : String) : dictMem ([] : List (String × α)) k = false := rfl

theorem dictMem_cons (p : String × α) (d : List (String × α)) (k : String) :
    dictMem (p :: d) k = (p.1 == k || dictMem d k) := by
  by_cases h : p.1 = k <;> simp [dictMem, List.find?_cons, h]

theorem dictGet_cons (p : String × α) (d : List (String × α)) (k : String) :
    dictGet (p :: d) k = if p.1 = k then some p.2 else dictGet d k := by
  by_cases h : p.1 = k <;> simp [dictGet, List.find?_cons, h]

theorem dictMem_eq_false_iff (d : List (String × α)) (k : String) :
    dictMem d k = false ↔ ∀ p ∈ d, p.1 ≠ k := by
  induction d with
  | nil => simp [dictMem_nil]
  | cons p d ih =>
    rw [dictMem_cons]
    by_cases h : p.1 = k <;> simp [h, ih]

theorem dictGet_eq_none_iff (d : List (String × α)) (k : String) :
    dictGet d k = none ↔ dictMem d k = false := by
  unfold dictGet dictMem
  cases h : d.find? (fun p => p.1 == k) <;> simp [h]

theorem dictSet_of_not_mem (d : List (String × α)) (k : String) (v : α)
    (h : dictMem d k = false) : dictSet d k v = d ++ [(k, v)] := by
  induction d with
  | nil => rfl
  | cons p d ih =>
    rw [dictMem_cons, Bool.or_eq_false_iff] at h
    rw [dictSet, if_neg (by simp [h.1]), ih h.2, List.cons_append]

theorem dictGet_dictSet (d : List (String × α)) (k n : String) (v : α) :
    dictGet (dictSet d k v) n = if n = k then some v else dictGet d n := by
  induction d with
  | nil =>
    rw [show dictSet ([] : List (String × α)) k v = [(k, v)] from rfl, dictGet_cons]
    by_cases h : n = k
    · subst h; simp
    · rw [if_neg (fun hh => h hh.symm), if_neg h]
  | cons p d ih =>
    by_cases hp : p.1 = k
    · rw [dictSet, if_pos (by simp [hp])]
      by_cases hn : n = k
      · subst hn; rw [dictGet_cons, if_pos rfl, if_pos rfl]
      · rw [dictGet_cons, dictGet_cons, if_neg (fun hh => hn hh.symm),
          if_neg hn, if_neg (fun hh : p.1 = n => hn (hh ▸ hp))]
    · rw [dictSet, if_neg (by simp [hp])]
      by_cases hn : n = k
      · subst hn
        rw [dictGet_cons, if_neg hp, ih, if_pos rfl, if_pos rfl]
      · rw [dictGet_cons, dictGet_cons, ih, if_neg hn, if_neg hn]

theorem dictGet_dictSet_self (d : List (String × α)) (k : String) (v : α) :
    dictGet (dictSet d k v) k = some v := by
  rw [dictGet_dictSet, if_pos rfl]

theorem dictGet_dictSet_ne (d : List (String × α)) (k n : String) (v : α)
    (hne : n ≠ k) : dictGet (dictSet d k v) n = dictGet d n := by
  rw [dictGet_dictSet, if_neg hne]

theorem dictGet_of_mem_nodup (d : List (String × α)) (k : String) (v : α)
    (hnd : (d.map Prod.fst).Nodup) (hmem : (k, v) ∈ d) : dictGet d k = some v := by
  induction d with
  | nil => cases hmem
  | cons p d ih =>
    rcases List.mem_cons.mp hmem with h | h
    · subst h; simp [dictGet_cons]
    · have hk : k ∈ d.map Prod.fst := List.mem_map.mpr ⟨(k, v), h, rfl⟩
      have hp : p.1 ≠ k := by
        rintro rfl
        exact (List.nodup_cons.mp (by simpa using hnd)).1 hk
      rw [dictGet_cons, if_neg hp]
      exact ih (List.nodup_cons.mp (by simpa using hnd)).2 h

end Castlefall

namespace Castlefall

/-! ### Slice and sort lemmas -/

theorem pyTake_sublist (l : List α) (n : Int) : (pyTake l n).Sublist l := by
  unfold pyTake
  split <;> exact List.take_sublist _ _

theorem pyDrop_sublist (l : List α) (n : Int) : (pyDrop l n).Sublist l := by
  unfold pyDrop
  split <;> exact List.drop_sublist _ _

theorem length_pyTake_of_nonneg (l : List α) (n : Int) (h : 0 ≤ n) :
    ((pyTake l n).length : Int) = min n l.length := by
  unfold pyTake
  rw [if_pos h, List.length_take]
  push_cast
  rw [Int.toNat_of_nonneg h]

/-! ### Assignment-loop lemmas -/

theorem dictMem_append (d e : List (String × α)) (k : String) :
    dictMem (d ++ e) k = (dictMem d k || dictMem e k) := by
  induction d with
  | nil => simp [dictMem_nil]
  | cons p d ih =>
    by_cases h : p.1 = k <;> simp [List.cons_append, dictMem_cons, h, ih, Bool.or_assoc]

theorem assignLoop_eq (half : Nat) (w1 w2 : String) (named : List (String × Conn)) :
    ∀ (i : Nat) (aw : List (String × String)),
      (named.map Prod.fst).Nodup →
      (∀ n ∈ named.map Prod.fst, dictMem aw n = false) →
      assignLoop half w1 w2 i aw named =
        aw ++ (List.enumFrom i named).map
          (fun q => (q.2.1, if half ≤ q.1 then w2 else w1)) := by
  induction named with
  | nil => intro i aw _ _; simp [assignLoop]
  | cons hd rest ih =>
    intro i aw hnd hmem
    obtain ⟨name, c⟩ := hd
    rw [List.map_cons] at hnd
    have hnd' := List.nodup_cons.mp hnd
    rw [assignLoop, dictSet_of_not_mem _ _ _ (hmem name (by simp))]
    rw [ih (i + 1) _ hnd'.2 ?_]
    · simp [List.enumFrom_cons]
    · intro n hn
      rw [dictMem_append, hmem n (by simp [hn]), dictMem_cons, dictMem_nil]
      have hne : name ≠ n := fun h => hnd'.1 (h ▸ hn)
      simp [hne]

theorem assignLoop_keys (half : Nat) (w1 w2 : String) (named : List (String × Conn))
    (hnd : (named.map Prod.fst).Nodup) :
    (assignLoop half w1 w2 0 [] named).map Prod.fst = named.map Prod.fst := by
  rw [assignLoop_eq half w1 w2 named 0 [] hnd (by intro n _; rfl)]
  rw [List.nil_append, List.map_map]
  have : (Prod.fst ∘ fun q : Nat × (String × Conn) =>
      (q.2.1, if half ≤ q.1 then w2 else w1)) = (Prod.fst ∘ Prod.snd) := rfl
  rw [this, ← List.map_map, List.enumFrom_map_snd]

theorem assignLoop_length (half : Nat) (w1 w2 : String) (named : List (String × Conn))
    (hnd : (named.map Prod.fst).Nodup) :
    (assignLoop half w1 w2 0 [] named).length = named.length := by
  have := congrArg List.length (assignLoop_keys half w1 w2 named hnd)
  simpa using this

theorem assignLoop_values (half : Nat) (w1 w2 : String) (named : List (String × Conn))
    (hnd : (named.map Prod.fst).Nodup) (pr : String × String)
    (hpr : pr ∈ assignLoop half w1 w2 0 [] named) : pr.2 = w1 ∨ pr.2 = w2 := by
  rw [assignLoop_eq half w1 w2 named 0 [] hnd (by intro n _; rfl), List.nil_append] at hpr
  obtain ⟨q, _, hq⟩ := List.mem_map.mp hpr
  by_cases h : half ≤ q.1 <;> simp [← hq, h]

theorem assignLoop_get (half : Nat) (w1 w2 : String) (named : List (String × Conn))
    (hnd : (named.map Prod.fst).Nodup) (k : Nat) (pr : String × Conn)
    (hk : named[k]? = some pr) :
    dictGet (assignLoop half w1 w2 0 [] named) pr.1 =
      some (if half ≤ k then w2 else w1) := by
  rw [assignLoop_eq half w1 w2 named 0 [] hnd (by intro n _; rfl), List.nil_append]
  apply dictGet_of_mem_nodup
  · rw [List.map_map]
    have : (Prod.fst ∘ fun q : Nat × (String × Conn) =>
        (q.2.1, if half ≤ q.1 then w2 else w1)) = (Prod.fst ∘ Prod.snd) := rfl
    rw [this, ← List.map_map, List.enumFrom_map_snd]
    exact hnd
  · apply List.mem_map.mpr
    refine ⟨(k, pr), ?_, rfl⟩
    apply List.mem_iff_getElem?.mpr
    exact ⟨k, by rw [List.getElem?_enumFrom, hk]; simp⟩

end Castlefall

namespace Castlefall

/-! ### Draw-pool lemmas -/

theorem pool_set_self (r : Room) (key : String) (x : List String) :
    Room.pool { r with words_left := dictSet r.words_left key x } key = x := by
  unfold Room.pool
  rw [dictGet_dictSet_self]
  rfl

theorem pool_set_ne (r : Room) (key key2 : String) (x : List String)
    (h : key2 ≠ key) :
    Room.pool { r with words_left := dictSet r.words_left key x } key2 =
      Room.pool r key2 := by
  unfold Room.pool
  rw [dictGet_dictSet_ne _ _ _ _ h]

/-- Specification of `Room.select_words` on a known wordlist: it succeeds,
the drawn words all come from the wordlist, they are duplicate-free when the
wordlist is, the pool invariant is preserved, the drawn count is
`min num |wordlist|` for non-negative `num`, and every other room field is
untouched. -/
theorem select_words_spec (wb : WordBank) (shuf : List String → List String)
    (r : Room) (key : String) (num : Int) (ws : List String)
    (hshuf : ShufOK shuf) (hInv : PoolInv wb r) (hws : wbGet wb key = some ws) :
    ∃ out r2, Room.select_words wb shuf r key num = .ok (out, r2) ∧
      (∀ w ∈ out, w ∈ ws) ∧ (ws.Nodup → out.Nodup) ∧ PoolInv wb r2 ∧
      (0 ≤ num → (out.length : Int) = min num ws.length) ∧
      r2.d = r.d ∧ r2.round = r.round ∧ r2.last_start = r.last_start ∧
      r2.players_in_round = r.players_in_round ∧
      r2.assigned_words = r.assigned_words ∧ r2.words = r.words := by
  obtain ⟨hInv1, hInv2⟩ := hInv
  obtain ⟨p, hperm, hsub⟩ := hInv1 key ws hws
  have hInvPres : ∀ left' : List String, left'.Perm ws ∨ left'.Sublist p →
      PoolInv wb { r with words_left := dictSet r.words_left key (pyDrop left' num) } := by
    intro left' hcase
    constructor
    · intro key2 ws2 hws2
      by_cases hk : key2 = key
      · subst hk
        rw [hws] at hws2
        injection hws2 with hws2
        subst hws2
        rcases hcase with hc | hc
        · exact ⟨left', hc, by rw [pool_set_self]; exact pyDrop_sublist _ _⟩
        · exact ⟨p, hperm, by rw [pool_set_self]; exact (pyDrop_sublist _ _).trans hc⟩
      · rw [pool_set_ne _ _ _ _ hk]
        exact hInv1 key2 ws2 hws2
    · intro key2 hws2
      have hk : key2 ≠ key := fun h => by rw [h, hws] at hws2; cases hws2
      rw [pool_set_ne _ _ _ _ hk]
      exact hInv2 key2 hws2
  by_cases hlen : ((Room.pool r key).length : Int) < num
  · refine ⟨pyTake (shuf ws) num,
      { r with words_left := dictSet r.words_left key (pyDrop (shuf ws) num) },
      ?_, ?_, ?_, ?_, ?_, rfl, rfl, rfl, rfl, rfl, rfl⟩
    · unfold Room.select_words
      rw [if_pos hlen, hws]
    · intro w hw
      exact (hshuf ws).mem_iff.mp ((pyTake_sublist _ _).subset hw)
    · intro hnd
      exact List.Nodup.sublist (pyTake_sublist _ _) ((hshuf ws).nodup_iff.mpr hnd)
    · exact hInvPres (shuf ws) (Or.inl (hshuf ws))
    · intro h0
      rw [length_pyTake_of_nonneg _ _ h0, (hshuf ws).length_eq]
  · have hle : ((Room.pool r key).length : Int) ≤ ws.length := by
      have h1 : (Room.pool r key).length ≤ p.length := hsub.length_le
      have h2 : p.length = ws.length := hperm.length_eq
      omega
    refine ⟨pyTake (Room.pool r key) num,
      { r with words_left := dictSet r.words_left key (pyDrop (Room.pool r key) num) },
      ?_, ?_, ?_, ?_, ?_, rfl, rfl, rfl, rfl, rfl, rfl⟩
    · unfold Room.select_words
      rw [if_neg hlen]
    · intro w hw
      have hwp : w ∈ p := hsub.subset ((pyTake_sublist _ _).subset hw)
      exact hperm.mem_iff.mp hwp
    · intro hnd
      have hpnd : p.Nodup := hperm.nodup_iff.mpr hnd
      exact List.Nodup.sublist (pyTake_sublist _ _) (List.Nodup.sublist hsub hpnd)
    · exact hInvPres (Room.pool r key) (Or.inr hsub)
    · intro h0
      rw [length_pyTake_of_nonneg _ _ h0]
      omega

/-- Every `ok` result of `select_words` changes only the draw pool. -/
theorem select_words_fields (wb : WordBank) (shuf : List String → List String)
    (r : Room) (key : String) (num : Int) (out : List String) (r2 : Room)
    (h : Room.select_words wb shuf r key num = .ok (out, r2)) :
    r2.d = r.d ∧ r2.round = r.round ∧ r2.last_start = r.last_start ∧
    r2.players_in_round = r.players_in_round ∧
    r2.assigned_words = r.assigned_words ∧ r2.words = r.words := by
  simp only [Room.select_words] at h
  split at h
  · split at h
    · cases h
    · simp only [Except.ok.injEq, Prod.mk.injEq] at h
      rw [← h.2]
      exact ⟨rfl, rfl, rfl, rfl, rfl, rfl⟩
  · simp only [Except.ok.injEq, Prod.mk.injEq] at h
    rw [← h.2]
    exact ⟨rfl, rfl, rfl, rfl, rfl, rfl⟩

end Castlefall

namespace Castlefall

/-- Inversion of a successful `Room.start_round`: the round check and the
rate limit passed, the draw succeeded with at least two words, and the result
state is the drawn state with the snapshot, assignment map and word board
rebuilt. -/
theorem start_round_ok_inv (wb : WordBank) (rand : Rand) (now : Int) (r : Room)
    (val : StartReq) (r' : Room)
    (h : r.start_round wb rand now val = .ok r') :
    val.roundField = some (r.round : Int) ∧ r.last_start + 2 ≤ now ∧
    ∃ wl words r2,
      val.wordlist = some wl ∧
      Room.select_words wb rand.shuf
        { r with round := r.round + 1, last_start := now } wl
        (parse_wordcount val.wordcount) = .ok (words, r2) ∧
      2 ≤ words.length ∧
      r' = { r2 with
        players_in_round := r2.get_player_names
        assigned_words := assignLoop ((rand.shufC r2.d).length / 2)
          (words.getD (rand.sample2 words).1 "") (words.getD (rand.sample2 words).2 "")
          0 [] (rand.shufC r2.d)
        words := some words } := by
  simp only [Room.start_round] at h
  split at h
  · cases h
  · split at h
    · cases h
    · rename_i h1 h2
      refine ⟨not_not.mp h1, by omega, ?_⟩
      split at h
      · cases h
      · rename_i wl hwl
        split at h
        · cases h
        · rename_i words r2 hsel
          split at h
          · cases h
          · rename_i hlen
            refine ⟨wl, words, r2, hwl, hsel, by omega, ?_⟩
            injection h with h
            exact h.symm

end Castlefall

namespace Castlefall

/-! ### Small registry and lookup helpers -/

theorem dictGet_mem (d : List (String × α)) (k : String) (v : α)
    (h : dictGet d k = some v) : ∃ pr ∈ d, pr.2 = v := by
  unfold dictGet at h
  cases hf : d.find? (fun p => p.1 == k) with
  | none => rw [hf] at h; cases h
  | some pr =>
    rw [hf] at h
    exact ⟨pr, List.mem_of_find?_eq_some hf, by injection h⟩

theorem statusSet_self (st : Conn → Option ClientStatus) (peer : Conn)
    (v : Option ClientStatus) : statusSet st peer v peer = v := by
  simp [statusSet]

theorem statusSet_ne (st : Conn → Option ClientStatus) (peer x : Conn)
    (v : Option ClientStatus) (h : x ≠ peer) : statusSet st peer v x = st x := by
  simp [statusSet, h]

theorem updRoom_self (rooms : String → Room) (k : String) (r : Room) :
    updRoom rooms k r k = r := by
  simp [updRoom]

theorem updRoom_ne (rooms : String → Room) (k x : String) (r : Room)
    (h : x ≠ k) : updRoom rooms k r x = rooms x := by
  simp [updRoom, h]

/-- The draw-pool invariant holds for any room with the freshly initialised
empty pool table. -/
theorem poolInv_of_empty (wb : WordBank) (r : Room) (h : r.words_left = []) :
    PoolInv wb r := by
  constructor
  · intro key ws _
    refine ⟨ws, List.Perm.refl ws, ?_⟩
    unfold Room.pool
    rw [h]
    exact List.nil_sublist ws
  · intro key _
    unfold Room.pool
    rw [h]
    rfl

/-! ### Concrete instances used by witnesses and counterexamples -/

/-- A four-word word bank. -/
def wbC : WordBank := [("w", ["a", "b", "c", "d"])]

/-- A deterministic instance of the randomness oracle: shuffles are the
identity permutation and `sample` picks the first two indices. -/
def randC : Rand := { shuf := fun l => l, shufC := fun l => l, sample2 := fun _ => (0, 1) }

theorem randC_shuf_ok : ShufOK randC.shuf := fun l => List.Perm.refl l

theorem randC_shufC_ok : ShufCOK randC.shufC := fun l => List.Perm.refl l

theorem randC_sample_ok : SampleOK randC.sample2 := by
  intro l h
  refine ⟨?_, ?_, ?_⟩ <;> simp [randC] <;> omega

/-- A three-player room that has not started any round. -/
def roomC : Room :=
  { d := [("p1", "c1"), ("p2", "c2"), ("p3", "c3")], round := 0, last_start := 0
    players_in_round := [], assigned_words := [], words_left := [], words := none }

/-- A well-formed start request for round 0, drawing 2 words from `"w"`. -/
def valC : StartReq := { roundField := some 0, wordlist := some "w", wordcount := .val 2 }

/-- The state of `roomC` after `start_round wbC randC 10 valC`. -/
def roomC2 : Room :=
  { d := [("p1", "c1"), ("p2", "c2"), ("p3", "c3")], round := 1, last_start := 10
    players_in_round := ["p1", "p2", "p3"]
    assigned_words := [("p1", "a"), ("p2", "b"), ("p3", "b")]
    words_left := [("w", ["c", "d"])]
    words := some ["a", "b"] }

/-! ### Claim C3 -/

/-- C3: `start_round` returns `False` with the room value unchanged (hence
`round` and `assigned_words` unchanged) whenever the request's round number
differs from the room's current round, regardless of timing, and whenever it
is called less than 2 seconds after `last_start`; and every successful start
sets `last_start` to the call time, so a second call within 2 seconds of a
successful start hits the second rejection. -/
theorem C3_sync_and_rate_limit_reject (wb : WordBank) (rand : Rand)
    (now : Int) (r : Room) (val : StartReq) :
    (val.roundField ≠ some (r.round : Int) →
      r.start_round wb rand now val = .rej r) ∧
    (now < r.last_start + 2 → r.start_round wb rand now val = .rej r) ∧
    (∀ r', r.start_round wb rand now val = .ok r' →
      r'.last_start = now ∧ r.last_start + 2 ≤ now) := by
  refine ⟨?_, ?_, ?_⟩
  · intro h1
    simp only [Room.start_round]
    rw [if_pos h1]
  · intro h2
    simp only [Room.start_round]
    by_cases h1 : val.roundField ≠ some (r.round : Int)
    · rw [if_pos h1]
    · rw [if_neg h1, if_pos h2]
  · intro r' h
    obtain ⟨-, hle, wl, words, r2, -, hsel, -, heq⟩ :=
      start_round_ok_inv wb rand now r val r' h
    have hf := select_words_fields _ _ _ _ _ _ _ hsel
    subst heq
    exact ⟨hf.2.2.1, hle⟩

/-- Witness for C3 at concrete inputs: an out-of-sync request is rejected
unchanged, and a request 1 second after the last start is rejected
unchanged. -/
theorem C3_witness :
    ((({ valC with roundField := some 7 } : StartReq).roundField ≠
        some ((roomC.round : Int))) ∧
      roomC.start_round wbC randC 10 { valC with roundField := some 7 } = .rej roomC) ∧
    (((1 : Int) < roomC.last_start + 2) ∧
      roomC.start_round wbC randC 1 valC = .rej roomC) := by
  constructor
  · exact ⟨by decide, (C3_sync_and_rate_limit_reject wbC randC 10 roomC
      { valC with roundField := some 7 }).1 (by decide)⟩
  · exact ⟨by decide, (C3_sync_and_rate_limit_reject wbC randC 1 roomC valC).2.1 (by decide)⟩

/-! ### Claim C4 -/

/-- C4 (amended): within one `select_words` call on a known wordlist the
drawn words are pairwise distinct (whenever the wordlist itself has no
duplicate entries) and all of them belong to `wordlists[key]`, and the pool
invariant is preserved; the cross-generation exhaustion property of the
original claim is refuted separately. -/
theorem C4_draw_within_call (wb : WordBank) (shuf : List String → List String)
    (r : Room) (key : String) (num : Int) (ws : List String)
    (hshuf : ShufOK shuf) (hInv : PoolInv wb r)
    (hws : wbGet wb key = some ws) (hnd : ws.Nodup) :
    ∃ out r2, Room.select_words wb shuf r key num = .ok (out, r2) ∧
      out.Nodup ∧ (∀ w ∈ out, w ∈ ws) ∧ PoolInv wb r2 := by
  obtain ⟨out, r2, hsel, hmem, hnodup, hinv, -⟩ :=
    select_words_spec wb shuf r key num ws hshuf hInv hws
  exact ⟨out, r2, hsel, hnodup hnd, hmem, hinv⟩

/-- Witness for C4 at a concrete input: drawing 3 of the 4 words succeeds,
the draw is duplicate-free and contained in the wordlist. -/
theorem C4_witness :
    ShufOK (fun l => l) ∧ wbGet wbC "w" = some ["a", "b", "c", "d"] ∧
    (∃ out r2, Room.select_words wbC (fun l => l) (Room.init 0) "w" 3 = .ok (out, r2) ∧
      out.Nodup ∧ (∀ w ∈ out, w ∈ (["a", "b", "c", "d"] : List String)) ∧
      PoolInv wbC r2) := by
  refine ⟨fun l => List.Perm.refl l, by decide, ?_⟩
  exact C4_draw_within_call wbC (fun l => l) (Room.init 0) "w" 3 ["a", "b", "c", "d"]
    (fun l => List.Perm.refl l) (poolInv_of_empty wbC (Room.init 0) rfl)
    (by decide) (by decide)

/-- The state of `Room.init 0` after drawing 3 words from `"w"` with the
identity shuffle. -/
def roomD1 : Room := { Room.init 0 with words_left := [("w", ["d"])] }

/-- Counterexample for C4: with the identity shuffle (a legitimate
permutation), drawing 3 words twice returns `a`, `b`, `c` both times — the
word `a` repeats across the reshuffle while `d`, discarded by the refill, has
never been drawn, so the full wordlist is not exhausted before a repeat. -/
theorem C4_counterexample :
    (Room.init 0).select_words wbC (fun l => l) "w" 3 = .ok (["a", "b", "c"], roomD1) ∧
    roomD1.select_words wbC (fun l => l) "w" 3 = .ok (["a", "b", "c"], roomD1) ∧
    "a" ∈ (["a", "b", "c"] : List String) ∧
    "d" ∉ (["a", "b", "c"] : List String) ∧
    "d" ∈ (["a", "b", "c", "d"] : List String) := by
  exact ⟨rfl, rfl, by decide, by decide, by decide⟩

end Castlefall

namespace Castlefall

/-! ### Claim C1 -/

/-- C1 (amended): `start_round`'s checks run in a strict sequence, but only
the first two failures return `False` without mutation: an out-of-sync round
number or a rate-limited call returns `False` with the room unchanged, while
an unknown wordlist raises `KeyError` and a drawn set of fewer than 2 words
raises `ValueError`, in both cases after `round` has already been incremented
and `last_start` set to `now` (and, in the second case, after the draw pool
has been consumed); `players_in_round`, `assigned_words` and `words` stay
unchanged in every failure. -/
theorem C1_check_sequence (wb : WordBank) (rand : Rand) (now : Int)
    (r : Room) (val : StartReq) (wl : String) :
    (val.roundField ≠ some (r.round : Int) →
      r.start_round wb rand now val = .rej r) ∧
    (now < r.last_start + 2 → r.start_round wb rand now val = .rej r) ∧
    (PoolInv wb r → val.roundField = some (r.round : Int) →
      r.last_start + 2 ≤ now → val.wordlist = some wl → wbGet wb wl = none →
      1 ≤ parse_wordcount val.wordcount →
      r.start_round wb rand now val =
        .exn .keyError { r with round := r.round + 1, last_start := now }) ∧
    (∀ ws, PoolInv wb r → val.roundField = some (r.round : Int) →
      r.last_start + 2 ≤ now → val.wordlist = some wl → wbGet wb wl = some ws →
      ShufOK rand.shuf → 0 ≤ parse_wordcount val.wordcount →
      min (parse_wordcount val.wordcount) (ws.length : Int) < 2 →
      ∃ r2, r.start_round wb rand now val = .exn .valueError r2 ∧
        r2.round = r.round + 1 ∧ r2.last_start = now ∧ r2.d = r.d ∧
        r2.players_in_round = r.players_in_round ∧
        r2.assigned_words = r.assigned_words ∧ r2.words = r.words) := by
  refine ⟨?_, ?_, ?_, ?_⟩
  · intro h1
    simp only [Room.start_round]
    rw [if_pos h1]
  · intro h2
    simp only [Room.start_round]
    by_cases h1 : val.roundField ≠ some (r.round : Int)
    · rw [if_pos h1]
    · rw [if_neg h1, if_pos h2]
  · intro hInv hround htime hwl hnone hnum
    have hpool : Room.pool { r with round := r.round + 1, last_start := now } wl = [] :=
      hInv.2 wl hnone
    have hsel : Room.select_words wb rand.shuf
        { r with round := r.round + 1, last_start := now } wl
        (parse_wordcount val.wordcount) = .error .keyError := by
      simp only [Room.select_words]
      rw [hpool, if_pos (by simpa using hnum), hnone]
    obtain ⟨rf, wlf, wcf⟩ := val
    simp only at hround hwl
    subst hround
    subst hwl
    simp only [Room.start_round, if_neg (not_lt.mpr htime)]
    rw [if_neg (fun hn : ¬ _ = _ => hn rfl)]
    simp only [hsel]
  · intro ws hInv hround htime hwl hws hshuf hnum hmin
    have hInv1 : PoolInv wb { r with round := r.round + 1, last_start := now } := hInv
    obtain ⟨out, r2, hsel, hmem, hnodup, hinv, hlen, hd, hr, hl, hp, ha, hw⟩ :=
      select_words_spec wb rand.shuf { r with round := r.round + 1, last_start := now }
        wl (parse_wordcount val.wordcount) ws hshuf hInv1 hws
    have hlt : out.length < 2 := by
      have := hlen hnum
      omega
    obtain ⟨rf, wlf, wcf⟩ := val
    simp only at hround hwl
    subst hround
    subst hwl
    refine ⟨r2, ?_, hr, hl, hd, hp, ha, hw⟩
    simp only [Room.start_round, if_neg (not_lt.mpr htime)]
    rw [if_neg (fun hn : ¬ _ = _ => hn rfl)]
    simp only [hsel, if_pos hlt]

/-- Counterexample for C1: a start request naming an unknown wordlist does
not return `False` without mutation — it raises `KeyError` after `round` has
been incremented and `last_start` updated. -/
theorem C1_counterexample :
    roomC.start_round wbC randC 10
        { roundField := some 0, wordlist := some "nope", wordcount := .val 3 } =
      .exn .keyError { roomC with round := 1, last_start := 10 } ∧
    (1 : Nat) ≠ roomC.round := by
  exact ⟨by decide, by decide⟩

/-- Witness for C1 at concrete inputs: the out-of-sync rejection and the
unknown-wordlist `KeyError` of the amended claim, instantiated. -/
theorem C1_witness :
    (roomC.start_round wbC randC 10 { valC with roundField := some 7 } = .rej roomC) ∧
    (roomC.start_round wbC randC 10
        { roundField := some 0, wordlist := some "missing", wordcount := .absent } =
      .exn .keyError { roomC with round := 1, last_start := 10 }) := by
  constructor
  · exact (C1_check_sequence wbC randC 10 roomC { valC with roundField := some 7 }
      "w").1 (by decide)
  · exact (C1_check_sequence wbC randC 10 roomC
      { roundField := some 0, wordlist := some "missing", wordcount := .absent }
      "missing").2.2.1 (poolInv_of_empty wbC roomC rfl) (by decide) (by decide)
      (by decide) (by decide) (by decide)

end Castlefall

namespace Castlefall

/-- Full analysis of a successful `start_round` on a known, duplicate-free
wordlist: exposes the drawn board, the two sampled words and the assignment
loop, together with the preserved and rebuilt fields. -/
theorem start_round_success_analysis (wb : WordBank) (rand : Rand) (now : Int)
    (r : Room) (val : StartReq) (r' : Room) (wl : String) (ws : List String)
    (hshuf : ShufOK rand.shuf) (hshufC : ShufCOK rand.shufC)
    (hsample : SampleOK rand.sample2)
    (hInv : PoolInv wb r) (hd : (r.d.map Prod.fst).Nodup)
    (hwl : val.wordlist = some wl) (hws : wbGet wb wl = some ws) (hnd : ws.Nodup)
    (hok : r.start_round wb rand now val = .ok r') :
    ∃ words w1 w2,
      r'.round = r.round + 1 ∧ r'.last_start = now ∧ r.last_start + 2 ≤ now ∧
      r'.d = r.d ∧
      r'.words = some words ∧ (∀ w ∈ words, w ∈ ws) ∧ words.Nodup ∧
      2 ≤ words.length ∧
      (0 ≤ parse_wordcount val.wordcount →
        (words.length : Int) = min (parse_wordcount val.wordcount) ws.length) ∧
      w1 ∈ words ∧ w2 ∈ words ∧ w1 ≠ w2 ∧
      r'.assigned_words =
        assignLoop ((rand.shufC r.d).length / 2) w1 w2 0 [] (rand.shufC r.d) ∧
      (rand.shufC r.d).Perm r.d ∧
      ((rand.shufC r.d).map Prod.fst).Nodup := by
  obtain ⟨hround, htime, wl0, words, r2, hwl0, hsel, hlen2, heq⟩ :=
    start_round_ok_inv wb rand now r val r' hok
  rw [hwl] at hwl0
  injection hwl0 with hwl0
  subst hwl0
  have hInv1 : PoolInv wb { r with round := r.round + 1, last_start := now } := hInv
  obtain ⟨out, r2', hsel', hmem, hnodup, hinv, hlenm, hd2, hr2, hl2, hp2, ha2, hw2⟩ :=
    select_words_spec wb rand.shuf { r with round := r.round + 1, last_start := now }
      wl (parse_wordcount val.wordcount) ws hshuf hInv1 hws
  rw [hsel'] at hsel
  injection hsel with hsel
  have hout : out = words := congrArg Prod.fst hsel
  have hr2eq : r2' = r2 := congrArg Prod.snd hsel
  subst hout
  subst hr2eq
  have hd3 : r2'.d = r.d := hd2
  have hwords_nd : out.Nodup := hnodup hnd
  obtain ⟨hi, hj, hij⟩ := hsample out hlen2
  have hw1 : out.getD (rand.sample2 out).1 "" = out[(rand.sample2 out).1] :=
    List.getD_eq_getElem out "" hi
  have hw2g : out.getD (rand.sample2 out).2 "" = out[(rand.sample2 out).2] :=
    List.getD_eq_getElem out "" hj
  refine ⟨out, out.getD (rand.sample2 out).1 "",
    out.getD (rand.sample2 out).2 "", ?_, ?_, htime, ?_, ?_, hmem, hwords_nd,
    hlen2, hlenm, ?_, ?_, ?_, ?_, ?_, ?_⟩
  · rw [heq]
    exact hr2
  · rw [heq]
    exact hl2
  · rw [heq]
    exact hd3
  · rw [heq]
  · rw [hw1]
    exact List.getElem_mem hi
  · rw [hw2g]
    exact List.getElem_mem hj
  · intro hcontra
    rw [hw1, hw2g] at hcontra
    exact hij ((List.Nodup.getElem_inj_iff hwords_nd).mp hcontra)
  · rw [heq]
    show assignLoop ((rand.shufC r2'.d).length / 2) _ _ 0 [] (rand.shufC r2'.d) = _
    rw [hd3]
  · exact hd3 ▸ hshufC r2'.d
  · have hperm : ((rand.shufC r.d).map Prod.fst).Perm (r.d.map Prod.fst) :=
      (hd3 ▸ hshufC r2'.d).map Prod.fst
    exact hperm.nodup_iff.mpr hd

end Castlefall

namespace Castlefall

/-! ### Claim C2 -/

/-- C2 (amended): every successful `start_round` on a known duplicate-free
wordlist with requested wordcount W ≥ 2 increments `round` by exactly 1,
strictly increases `last_start` (to the call time), rebuilds
`assigned_words` with exactly one entry per player present at start, drawn
from a pair of two distinct words — both of which are used whenever at least
2 players are present (with 0 or 1 players only one of the pair can appear) —
and stores a drawn board of size `min W |wordlist|`. -/
theorem C2_success_effects (wb : WordBank) (rand : Rand) (now : Int)
    (r : Room) (val : StartReq) (r' : Room) (wl : String) (ws : List String)
    (hshuf : ShufOK rand.shuf) (hshufC : ShufCOK rand.shufC)
    (hsample : SampleOK rand.sample2)
    (hInv : PoolInv wb r) (hd : (r.d.map Prod.fst).Nodup)
    (hwl : val.wordlist = some wl) (hws : wbGet wb wl = some ws) (hnd : ws.Nodup)
    (hW : 2 ≤ parse_wordcount val.wordcount)
    (hok : r.start_round wb rand now val = .ok r') :
    r'.round = r.round + 1 ∧
    r.last_start < r'.last_start ∧ r'.last_start = now ∧
    r'.assigned_words.length = r.d.length ∧
    (r'.assigned_words.map Prod.fst).Perm (r.d.map Prod.fst) ∧
    (∃ w1 w2, w1 ≠ w2 ∧ w1 ∈ ws ∧ w2 ∈ ws ∧
      (∀ pr ∈ r'.assigned_words, pr.2 = w1 ∨ pr.2 = w2) ∧
      (2 ≤ r.d.length →
        (∃ pr ∈ r'.assigned_words, pr.2 = w1) ∧
        (∃ pr ∈ r'.assigned_words, pr.2 = w2))) ∧
    (∃ cw, r'.words = some cw ∧
      (cw.length : Int) = min (parse_wordcount val.wordcount) ws.length) := by
  obtain ⟨words, w1, w2, hround', hlast', htime, hd', hwords', hmem, hnd', hlen2,
    hlenm, hw1m, hw2m, hw12, hassign, hperm, hndk⟩ :=
    start_round_success_analysis wb rand now r val r' wl ws hshuf hshufC hsample
      hInv hd hwl hws hnd hok
  have hlenN : (rand.shufC r.d).length = r.d.length := hperm.length_eq
  refine ⟨hround', by omega, hlast', ?_, ?_,
    ⟨w1, w2, hw12, hmem w1 hw1m, hmem w2 hw2m, ?_, ?_⟩,
    ⟨words, hwords', hlenm (by omega)⟩⟩
  · rw [hassign, assignLoop_length _ _ _ _ hndk, hlenN]
  · rw [hassign, assignLoop_keys _ _ _ _ hndk]
    exact hperm.map Prod.fst
  · intro pr hpr
    rw [hassign] at hpr
    exact assignLoop_values _ _ _ _ hndk pr hpr
  · intro hN
    have h0 : 0 < (rand.shufC r.d).length := by omega
    have hhalf : (rand.shufC r.d).length / 2 < (rand.shufC r.d).length := by omega
    constructor
    · have hget := assignLoop_get ((rand.shufC r.d).length / 2) w1 w2 (rand.shufC r.d)
        hndk 0 ((rand.shufC r.d)[0]) (List.getElem?_eq_getElem h0)
      rw [if_neg (by omega)] at hget
      rw [hassign]
      exact dictGet_mem _ _ _ hget
    · have hget := assignLoop_get ((rand.shufC r.d).length / 2) w1 w2 (rand.shufC r.d)
        hndk ((rand.shufC r.d).length / 2)
        ((rand.shufC r.d)[(rand.shufC r.d).length / 2])
        (List.getElem?_eq_getElem hhalf)
      rw [if_pos le_rfl] at hget
      rw [hassign]
      exact dictGet_mem _ _ _ hget

/-- A one-player room that has not started any round. -/
def roomE : Room := { roomC with d := [("p1", "c1")] }

/-- The state of `roomE` after `start_round wbC randC 10 valC`. -/
def roomE2 : Room :=
  { roomE with
    round := 1
    last_start := 10
    players_in_round := ["p1"]
    assigned_words := [("p1", "b")]
    words_left := [("w", ["c", "d"])]
    words := some ["a", "b"] }

/-- Counterexample for C2: a successful start with N = 1 player and
wordcount W = 2 ≥ 2 rebuilds `assigned_words` with one entry using exactly
one distinct word (only `word2`), not "exactly 2 distinct words". -/
theorem C2_counterexample :
    roomE.start_round wbC randC 10 valC = .ok roomE2 ∧
    parse_wordcount valC.wordcount = 2 ∧
    roomE2.assigned_words.map Prod.snd = ["b"] := by
  exact ⟨by decide, by decide, by decide⟩

/-- Witness for C2 at a concrete input: the three-player round start
increments the round and assigns a word to each of the three players. -/
theorem C2_witness :
    roomC2.round = roomC.round + 1 ∧
    roomC2.assigned_words.length = roomC.d.length := by
  have h := C2_success_effects wbC randC 10 roomC valC roomC2 "w" ["a", "b", "c", "d"]
    randC_shuf_ok randC_shufC_ok randC_sample_ok (poolInv_of_empty wbC roomC rfl)
    (by decide) (by decide) (by decide) (by decide) (by decide) (by decide)
  exact ⟨h.1, h.2.2.2.1⟩

/-! ### Claim C5 -/

/-- C5 (amended): on a successful `start_round` the shuffled (name,
connection) list is split at `floor(n/2)` and assigned a pair of two
distinct words: positions before `floor(n/2)` receive `word1` and the rest
receive `word2`, so for odd n the larger half is the one receiving `word2`
(the first, `word1` half is the smaller). -/
theorem C5_split_at_half (wb : WordBank) (rand : Rand) (now : Int)
    (r : Room) (val : StartReq) (r' : Room) (wl : String) (ws : List String)
    (hshuf : ShufOK rand.shuf) (hshufC : ShufCOK rand.shufC)
    (hsample : SampleOK rand.sample2)
    (hInv : PoolInv wb r) (hd : (r.d.map Prod.fst).Nodup)
    (hwl : val.wordlist = some wl) (hws : wbGet wb wl = some ws) (hnd : ws.Nodup)
    (hok : r.start_round wb rand now val = .ok r') :
    ∃ w1 w2, w1 ≠ w2 ∧ w1 ∈ ws ∧ w2 ∈ ws ∧
      (∀ k pr, (rand.shufC r.d)[k]? = some pr →
        dictGet r'.assigned_words pr.1 =
          some (if (rand.shufC r.d).length / 2 ≤ k then w2 else w1)) ∧
      (rand.shufC r.d).Perm r.d ∧
      (r.d.length % 2 = 1 →
        (rand.shufC r.d).length / 2 < r.d.length - r.d.length / 2) := by
  obtain ⟨words, w1, w2, hround', hlast', htime, hd', hwords', hmem, hnd', hlen2,
    hlenm, hw1m, hw2m, hw12, hassign, hperm, hndk⟩ :=
    start_round_success_analysis wb rand now r val r' wl ws hshuf hshufC hsample
      hInv hd hwl hws hnd hok
  refine ⟨w1, w2, hw12, hmem w1 hw1m, hmem w2 hw2m, ?_, hperm, ?_⟩
  · intro k pr hk
    rw [hassign]
    exact assignLoop_get _ _ _ _ hndk k pr hk
  · intro hodd
    have := hperm.length_eq
    omega

/-- Counterexample for C5: in the three-player round (odd n = 3, split at
`floor(3/2) = 1`), `word1` (the word at sample index 0, here `"a"`)
goes to the single player of the first half while `word2` (`"b"`) goes to the
two players of the remainder — the larger half receives `word2`, not
`word1` as the claim states. -/
theorem C5_counterexample :
    roomC.start_round wbC randC 10 valC = .ok roomC2 ∧
    roomC.d.length % 2 = 1 ∧
    randC.sample2 ["a", "b"] = (0, 1) ∧
    (roomC2.assigned_words.filter (fun pr => pr.2 == "a")).length = 1 ∧
    (roomC2.assigned_words.filter (fun pr => pr.2 == "b")).length = 2 := by
  exact ⟨by decide, by decide, by decide, by decide, by decide⟩

/-- Witness for C5 at a concrete input: the split/assignment description
instantiated on the three-player round. -/
theorem C5_witness :
    (roomC.start_round wbC randC 10 valC = .ok roomC2) ∧
    (∃ w1 w2, w1 ≠ w2 ∧ w1 ∈ (["a", "b", "c", "d"] : List String) ∧
      w2 ∈ (["a", "b", "c", "d"] : List String) ∧
      (∀ k pr, (randC.shufC roomC.d)[k]? = some pr →
        dictGet roomC2.assigned_words pr.1 =
          some (if (randC.shufC roomC.d).length / 2 ≤ k then w2 else w1)) ∧
      (randC.shufC roomC.d).Perm roomC.d ∧
      (roomC.d.length % 2 = 1 →
        (randC.shufC roomC.d).length / 2 < roomC.d.length - roomC.d.length / 2)) := by
  refine ⟨by decide, ?_⟩
  exact C5_split_at_half wbC randC 10 roomC valC roomC2 "w" ["a", "b", "c", "d"]
    randC_shuf_ok randC_shufC_ok randC_sample_ok (poolInv_of_empty wbC roomC rfl)
    (by decide) (by decide) (by decide) (by decide) (by decide)

end Castlefall

namespace Castlefall

/-! ### Claim C6 -/

/-- A room that finished round 1 with board `["x", "y"]` and no members. -/
def roomF : Room :=
  { d := [], round := 1, last_start := 5, players_in_round := ["q"]
    assigned_words := [], words_left := [], words := some ["x", "y"] }

/-- A factory whose room `"A"` is `roomF`; the factory-level `words` is the
`[]` assigned in `__init__` and never updated. -/
def facF : CastlefallFactory :=
  { rooms := fun rn => if rn = "A" then roomF else Room.init 0
    status_for_peer := fun _ => none
    words := [] }

/-- C6, evaluated at the failing input: registering into room `"A"`, whose
current round words are `["x", "y"]`, unicasts a snapshot whose `words`
field is the factory's own never-updated `[]` — not the room's
`currentRoundWords` — while the `word` field is correctly the player's
assigned word (absent here). -/
theorem C6_snapshot_words_from_factory :
    (facF.register wbC "A" "p" "c1").msgs =
      [("c1", .players ["p"]),
       ("c1", .snapshot "A" 1 ["q"] [] none [("w", 4)] "v0.2")] ∧
    (facF.rooms "A").words = some ["x", "y"] ∧
    facF.words = [] := by
  exact ⟨rfl, rfl, rfl⟩

/-! ### Claim C9 -/

/-- A factory with no sessions at all. -/
def facG : CastlefallFactory :=
  { rooms := fun _ => Room.init 0, status_for_peer := fun _ => none, words := [] }

/-- C9, evaluated at the failing input: with no session, `kick` is cleanly
ignored (no state change, no message, no error), but `start_round` raises
`AttributeError` because `room_of` returns `None` and the code calls
`None.start_round(...)` unguarded — the state is unchanged and nothing is
sent, but the handling operation fails rather than being ignored. -/
theorem C9_no_session_requests :
    facG.kick "c9" "target" = ⟨facG, [], none⟩ ∧
    facG.start_round wbC randC 10 "c9" valC = ⟨facG, [], some .attributeError⟩ := by
  exact ⟨rfl, rfl⟩

/-! ### Claim C7 -/

/-- A factory with no sessions and all rooms empty. -/
def facH : CastlefallFactory :=
  { rooms := fun _ => Room.init 0, status_for_peer := fun _ => none, words := [] }

/-- The factory after connection `"X"` registers as `("R", "a")` and then
re-registers as `("R2", "b")`. -/
def facH2 : CastlefallFactory :=
  ((facH.register wbC "R" "a" "X").state.register wbC "R2" "b" "X").state

/-- Counterexample for C7: after registering in room `"R"` as `"a"` and then
re-registering in room `"R2"` as `"b"`, connection `"X"` holds one session
(naming the second pair) yet is still attached to both (room, name) pairs —
the "exactly one (room, name) pair" invariant fails. -/
theorem C7_counterexample :
    facH2.status_for_peer "X" = some ⟨"R2", "b"⟩ ∧
    dictGet (facH2.rooms "R").d "a" = some "X" ∧
    dictGet (facH2.rooms "R2").d "b" = some "X" ∧
    ¬ (∃! pr : String × String, dictGet (facH2.rooms pr.1).d pr.2 = some "X") := by
  refine ⟨by decide, by decide, by decide, ?_⟩
  rintro ⟨pr, _, huniq⟩
  have h1 := huniq ("R", "a") (by decide)
  have h2 := huniq ("R2", "b") (by decide)
  exact absurd (h1.trans h2.symm) (by decide)

/-- C7 (amended): registering a connection that is not currently attached
anywhere, under a free name, creates its session and leaves it attached to
exactly one (room, name) pair; re-registering an already-attached connection
under a new room or name, however, leaves the stale attachment in place, so
the "iff exactly one" invariant fails (see the counterexample). -/
theorem C7_fresh_register_exactly_one (wb : WordBank) (f : CastlefallFactory)
    (room_name name client : String)
    (hfresh : ∀ rn n, dictGet (f.rooms rn).d n ≠ some client)
    (hname : dictGet (f.rooms room_name).d name = none) :
    (f.register wb room_name name client).err = none ∧
    (f.register wb room_name name client).state.status_for_peer client =
      some ⟨room_name, name⟩ ∧
    (∀ rn n, dictGet ((f.register wb room_name name client).state.rooms rn).d n =
        some client ↔ (rn = room_name ∧ n = name)) := by
  have hreg : f.register wb room_name name client =
      regFinish wb f room_name name client [] := by
    simp only [CastlefallFactory.register]
    rw [hname]
  refine ⟨by rw [hreg]; rfl, by rw [hreg]; exact statusSet_self _ _ _, ?_⟩
  intro rn n
  rw [hreg]
  show dictGet ((updRoom f.rooms room_name
    { f.rooms room_name with
        d := dictSet (f.rooms room_name).d name client } rn).d) n = some client ↔ _
  by_cases hrn : rn = room_name
  · subst hrn
    rw [updRoom_self]
    show dictGet (dictSet (f.rooms rn).d name client) n = some client ↔ _
    by_cases hn : n = name
    · subst hn
      rw [dictGet_dictSet_self]
      simp
    · rw [dictGet_dictSet_ne _ _ _ _ hn]
      simp only [hn, and_false, iff_false]
      exact hfresh rn n
  · rw [updRoom_ne _ _ _ _ hrn]
    simp only [hrn, false_and, iff_false]
    exact hfresh rn n

/-- Witness for C7 at a concrete input: a fresh registration of `"X"` into
room `"R"` as `"a"` succeeds, creates the session, and the attachment test
at the registered pair is affirmative. -/
theorem C7_witness :
    (facH.register wbC "R" "a" "X").err = none ∧
    (facH.register wbC "R" "a" "X").state.status_for_peer "X" = some ⟨"R", "a"⟩ ∧
    (dictGet ((facH.register wbC "R" "a" "X").state.rooms "R").d "a" = some "X" ↔
      ("R" = "R" ∧ "a" = "a")) := by
  have h := C7_fresh_register_exactly_one wbC facH "R" "a" "X"
    (by intro rn n h; simp [facH, Room.init, dictGet] at h) (by decide)
  exact ⟨h.1, h.2.1, h.2.2 "R" "a"⟩

end Castlefall

namespace Castlefall

/-! ### Claim C8 -/

theorem regFinish_err (wb : WordBank) (f : CastlefallFactory)
    (room_name name client : String) (pre : List (Conn × Msg)) :
    (regFinish wb f room_name name client pre).err = none := rfl

theorem regFinish_state_status (wb : WordBank) (f : CastlefallFactory)
    (room_name name client : String) (pre : List (Conn × Msg)) :
    (regFinish wb f room_name name client pre).state.status_for_peer =
      statusSet f.status_for_peer client (some ⟨room_name, name⟩) := rfl

theorem regFinish_state_rooms_self (wb : WordBank) (f : CastlefallFactory)
    (room_name name client : String) (pre : List (Conn × Msg)) :
    (regFinish wb f room_name name client pre).state.rooms room_name =
      { f.rooms room_name with d := dictSet (f.rooms room_name).d name client } := by
  simp only [regFinish]
  exact updRoom_self _ _ _

/-- C8: when a name in a room has been taken over by a newer connection via
a second `register` (which deletes the stale connection's session),
`unregister` of the stale connection is a complete no-op — the newer
connection keeps the room slot. -/
theorem C8_stale_unregister_keeps_newer (wb : WordBank) (f : CastlefallFactory)
    (r n X Y : String)
    (hna : dictGet (f.rooms r).d n = none) (hXY : X ≠ Y) :
    (((f.register wb r n X).state.register wb r n Y).state.unregister X) =
      ⟨((f.register wb r n X).state.register wb r n Y).state, [], none⟩ ∧
    dictGet ((((f.register wb r n X).state.register wb r n Y).state.rooms r).d) n =
      some Y := by
  have hreg1 : f.register wb r n X = regFinish wb f r n X [] := by
    simp only [CastlefallFactory.register]
    rw [hna]
  have hX : dictGet ((f.register wb r n X).state.rooms r).d n = some X := by
    rw [hreg1, regFinish_state_rooms_self]
    exact dictGet_dictSet_self _ _ _
  have hstX : (f.register wb r n X).state.status_for_peer X = some ⟨r, n⟩ := by
    rw [hreg1, regFinish_state_status]
    exact statusSet_self _ _ _
  generalize hgen : (f.register wb r n X).state = f1 at hX hstX
  have hreg2 : f1.register wb r n Y =
      regFinish wb
        { f1 with status_for_peer := statusSet f1.status_for_peer X none }
        r n Y [(X, .notice "Disconnected: your name was taken.")] := by
    simp only [CastlefallFactory.register, hX, hstX]
  have hstale : (f1.register wb r n Y).state.status_for_peer X = none := by
    rw [hreg2, regFinish_state_status]
    rw [statusSet_ne _ _ _ _ hXY]
    show statusSet f1.status_for_peer X none X = none
    exact statusSet_self _ _ _
  constructor
  · simp only [CastlefallFactory.unregister]
    rw [hstale]
  · rw [hreg2, regFinish_state_rooms_self]
    show dictGet (dictSet (({ f1 with
        status_for_peer := statusSet f1.status_for_peer X none
      } : CastlefallFactory).rooms r).d n Y) n = some Y
    exact dictGet_dictSet_self _ _ _

/-- Witness for C8 at concrete inputs: after `"X"` registers as `("R", "a")`
and `"Y"` takes the same name, unregistering the stale `"X"` changes nothing
and `"Y"` still holds the slot. -/
theorem C8_witness :
    (((facH.register wbC "R" "a" "X").state.register wbC "R" "a" "Y").state.unregister "X") =
      ⟨((facH.register wbC "R" "a" "X").state.register wbC "R" "a" "Y").state, [], none⟩ ∧
    dictGet ((((facH.register wbC "R" "a" "X").state.register wbC "R" "a" "Y").state.rooms "R").d) "a" =
      some "Y" :=
  C8_stale_unregister_keeps_newer wbC facH "R" "a" "X" "Y" (by decide) (by decide)

/-! ### Claim C10 -/

/-- C10: a connection re-registering under the exact (room, name) pair it
already holds triggers the eviction path against itself: it is sent the
"name was taken" disconnect notice as the first message, its session is
deleted and immediately recreated with the same (room, name), the operation
completes without error, and it remains the room's occupant for the name. -/
theorem C10_self_eviction (wb : WordBank) (f : CastlefallFactory) (r n c : String)
    (hself : dictGet (f.rooms r).d n = some c)
    (hsess : f.status_for_peer c = some ⟨r, n⟩) :
    (f.register wb r n c).err = none ∧
    (f.register wb r n c).msgs.head? =
      some (c, .notice "Disconnected: your name was taken.") ∧
    (f.register wb r n c).state.status_for_peer c = some ⟨r, n⟩ ∧
    dictGet ((f.register wb r n c).state.rooms r).d n = some c := by
  have hreg : f.register wb r n c = regFinish wb
      { f with status_for_peer := statusSet f.status_for_peer c none } r n c
      [(c, .notice "Disconnected: your name was taken.")] := by
    simp only [CastlefallFactory.register, hself, hsess]
  refine ⟨by rw [hreg]; rfl, by rw [hreg]; rfl, ?_, ?_⟩
  · rw [hreg, regFinish_state_status]
    exact statusSet_self _ _ _
  · rw [hreg, regFinish_state_rooms_self]
    show dictGet (dictSet (({ f with
        status_for_peer := statusSet f.status_for_peer c none
      } : CastlefallFactory).rooms r).d n c) n = some c
    exact dictGet_dictSet_self _ _ _

/-- A factory where `"X"` is registered in room `"R"` under name `"a"`. -/
def facK : CastlefallFactory :=
  { rooms := fun rn => if rn = "R" then { Room.init 0 with d := [("a", "X")] } else Room.init 0
    status_for_peer := fun p => if p = "X" then some ⟨"R", "a"⟩ else none
    words := [] }

/-- Witness for C10 at a concrete input. -/
theorem C10_witness :
    (facK.register wbC "R" "a" "X").err = none ∧
    (facK.register wbC "R" "a" "X").msgs.head? =
      some ("X", .notice "Disconnected: your name was taken.") ∧
    (facK.register wbC "R" "a" "X").state.status_for_peer "X" = some ⟨"R", "a"⟩ ∧
    dictGet ((facK.register wbC "R" "a" "X").state.rooms "R").d "a" = some "X" :=
  C10_self_eviction wbC facK "R" "a" "X" (by decide) (by decide)

end Castlefall
